import Mathlib

/-!
Verification of the essential-oil purity analysis pipeline
(`AvaliaçãodosOES.py`; the REPL transcript `part_000` is a near-duplicate).

Modelling conventions:
* A table cell is a `FloatVal`: a finite value (modelled exactly as a
  rational, so "within floating-point tolerance" statements become exact),
  IEEE NaN, or IEEE plus or minus infinity.  Signed zero is not modelled;
  `0 / 0` is NaN and `x / 0` for `x > 0` is `inf`, as in IEEE (pandas does
  not raise on division by zero).
* A table (`pd.DataFrame`) is a `List (List FloatVal)` of rows sharing one
  column schema; `iterrows` order is list order, and the default
  `RangeIndex` makes a row's `.name` its position, modelled as `Nat`.
* pandas `DataFrame.sum(axis=1)` skips NaN cells (`skipna=True`); the
  row sum `pdSum` filters NaN entries out before the IEEE fold.
* `sklearn.metrics.pairwise.cosine_similarity` validates its inputs
  (finite entries, equal vector length) and raises `ValueError` otherwise;
  on valid input it divides the dot product by the norms, replacing a zero
  norm by 1, so a zero vector gets similarity 0.0 rather than NaN.
* numpy's elementwise `>=` on 1-D float arrays yields False on any NaN
  comparison; equal-length arrays compare cellwise, a length-1 operand
  broadcasts against every cell of the other, and any other length
  mismatch raises a broadcast error.
* In the main script each analysis function wraps its loop in
  `try/except` that catches the error, logs it and returns the list
  accumulated so far; this is modelled by the loop stopping and returning
  the accumulator when the offending row is reached.
* Python's `max([])` raises `ValueError`; in `pipeline` that exception is
  uncaught, so the run produces no report.  The pipeline is modelled in
  `Option`, `none` being the aborted run.
-/

/-- An IEEE-754 double as stored in a pandas cell: a finite value
(modelled exactly by a rational), NaN, or a signed infinity. -/
inductive FloatVal where
  | real (q : ℚ)
  | nan
  | inf
  | ninf
deriving DecidableEq, Repr, Inhabited

namespace FloatVal

/-- The finite payload of a cell (0 for the non-finite cells; only used
beneath a finiteness guard). -/
def toQ : FloatVal → ℚ
  | real q => q
  | _ => 0

/-- Whether a cell holds a finite value. -/
def isFinite : FloatVal → Bool
  | real _ => true
  | _ => false

/-- IEEE addition on cells. -/
def fadd : FloatVal → FloatVal → FloatVal
  | nan, _ => nan
  | _, nan => nan
  | inf, ninf => nan
  | ninf, inf => nan
  | inf, _ => inf
  | _, inf => inf
  | ninf, _ => ninf
  | _, ninf => ninf
  | real a, real b => real (a + b)

/-- IEEE division on cells (signed zero not modelled: `0 / 0` is NaN,
`a / 0` is `inf` or `ninf` by the sign of `a`, finite over infinite is 0). -/
def fdiv : FloatVal → FloatVal → FloatVal
  | nan, _ => nan
  | _, nan => nan
  | inf, inf => nan
  | inf, ninf => nan
  | ninf, inf => nan
  | ninf, ninf => nan
  | inf, real b => if 0 ≤ b then inf else ninf
  | ninf, real b => if 0 ≤ b then ninf else inf
  | real _, inf => real 0
  | real _, ninf => real 0
  | real a, real b =>
      if b = 0 then (if a = 0 then nan else if 0 < a then inf else ninf)
      else real (a / b)

/-- IEEE `>=` on cells: any comparison against NaN is false. -/
def fge : FloatVal → FloatVal → Bool
  | nan, _ => false
  | _, nan => false
  | inf, _ => true
  | _, ninf => true
  | ninf, _ => false
  | real _, inf => false
  | real a, real b => decide (b ≤ a)

end FloatVal

open FloatVal

/-- IEEE sum of a list of cells (fold of `fadd` from 0). -/
def fsum (l : List FloatVal) : FloatVal := l.foldr fadd (real 0)

/-- pandas `row.sum()` with the default `skipna=True`: NaN cells are
dropped, the rest are summed by IEEE addition. -/
def pdSum (row : List FloatVal) : FloatVal :=
  fsum (row.filter (fun x => x ≠ nan))

/-- The exact rational sum of a row's payloads (meaningful when the row is
all finite, where it coincides with `pdSum`). -/
def qsumRow (row : List FloatVal) : ℚ := (row.map toQ).sum

/-- The function `preprocessar_espectros` (lines 31-48 of the main script):
`dados.div(dados.sum(axis=1), axis=0)`, i.e. every cell of a row is
divided by that row's (NaN-skipping) sum.  pandas raises nothing here, so
the surrounding `try/except` is dead and the function is total. -/
def preprocessar_espectros (dados : List (List FloatVal)) : List (List FloatVal) :=
  dados.map (fun row => row.map (fun x => fdiv x (pdSum row)))

/-- The equal-length case of the numpy comparison inside
`detectar_adulterantes`: `any(espectro_teste.values >= adulterante.values)`
with both arrays the same length (the main script compares with `>=`; the
transcript variant uses strict `>`). -/
def anyGe (t r : List FloatVal) : Bool := (List.zipWith fge t r).any id

/-- numpy elementwise `>=` of two 1-D float arrays, `none` standing for
the broadcast `ValueError`: equal-length arrays compare cellwise, a
length-1 operand broadcasts against every cell of the other, and any
other length mismatch is an error. -/
def npGe (t r : List FloatVal) : Option (List Bool) :=
  if t.length = r.length then some (List.zipWith fge t r)
  else if t.length = 1 then some (r.map (fun y => fge t.headI y))
  else if r.length = 1 then some (t.map (fun x => fge x r.headI))
  else none

/-- The row loop of `detectar_adulterantes`: `k` is the positional index
(`adulterante.name` under the default `RangeIndex`).  A broadcast error
(`npGe _ _ = none`) is caught by the script's `except` and the
accumulated list is returned, modelled by stopping the loop. -/
def detectLoop (t : List FloatVal) : List (List FloatVal) → ℕ → List ℕ
  | [], _ => []
  | r :: rs, k =>
    match npGe t r with
    | some cmp =>
        if cmp.any id then k :: detectLoop t rs (k + 1) else detectLoop t rs (k + 1)
    | none => []

/-- The function `detectar_adulterantes` (lines 104-123 of the main script): the
indices of the adulterant rows having some column at which the test
profile's value is `>=` the adulterant row's value. -/
def detectar_adulterantes (espectro_teste : List FloatVal)
    (banco_adulterantes : List (List FloatVal)) : List ℕ :=
  detectLoop espectro_teste banco_adulterantes 0

/-- Dot product of two rational vectors (numpy truncating zip; the
callers only use equal lengths). -/
def dotQ (a b : List ℚ) : ℚ := (List.zipWith (· * ·) a b).sum

/-- Sum of squares of a rational vector (the squared Euclidean norm). -/
def sumSq (a : List ℚ) : ℚ := (a.map (fun x => x ^ 2)).sum

/-- sklearn's `cosine_similarity` on two finite vectors: the dot product
over the product of the norms, a zero norm being replaced by 1 (sklearn's
`normalize` convention, which sends a zero vector to similarity 0.0). -/
noncomputable def cosSim (a b : List ℚ) : ℝ :=
  (dotQ a b : ℝ) /
    ((if sumSq a = 0 then 1 else Real.sqrt (sumSq a : ℝ)) *
     (if sumSq b = 0 then 1 else Real.sqrt (sumSq b : ℝ)))

/-- The function `calcular_similaridade` (lines 51-72 of the main script): cosine
similarity of the test profile with each reference row, in row order.
sklearn raises (`ValueError`) on a non-finite entry or a length mismatch;
the script's `except` catches it and returns the similarities accumulated
so far, modelled by the loop stopping there. -/
noncomputable def calcular_similaridade (espectro_teste : List FloatVal) :
    List (List FloatVal) → List ℝ
  | [] => []
  | r :: rs =>
    if espectro_teste.all isFinite ∧ r.all isFinite ∧ r.length = espectro_teste.length then
      cosSim (espectro_teste.map toQ) (r.map toQ) :: calcular_similaridade espectro_teste rs
    else []

/-- The function `determinar_pureza` (lines 126-140 of the main script):
`similaridade >= 0.9 and not adulterantes_detectados` selects the purity
string, anything else the adulteration alert. -/
noncomputable def determinar_pureza (similaridade : ℝ)
    (adulterantes_detectados : List ℕ) : String :=
  if 0.9 ≤ similaridade ∧ adulterantes_detectados = [] then
    "Alta potencial de pureza"
  else
    "Alerta: Produto possivelmente adulterado"

/-- One entry of the pipeline's `resultados` list. -/
structure Resultado where
  similaridade : ℝ
  status : String
  adulterantes : List ℕ

/-- The per-sample loop of `pipeline`: for each test row, score against
the reference bank, take `max(similaridades)` (Python's `max` raises
`ValueError` on an empty list, modelled by `none`, which aborts the run
since `pipeline` catches nothing), detect adulterants, classify. -/
noncomputable def processarAmostras (banco_referencia banco_adulterantes : List (List FloatVal)) :
    List (List FloatVal) → Option (List Resultado)
  | [] => some []
  | e :: es =>
    match (calcular_similaridade e banco_referencia).max? with
    | none => none
    | some m =>
      match processarAmostras banco_referencia banco_adulterantes es with
      | none => none
      | some rest =>
          some (⟨m, determinar_pureza m (detectar_adulterantes e banco_adulterantes),
                 detectar_adulterantes e banco_adulterantes⟩ :: rest)

/-- The function `pipeline` (lines 143-193 of the main script), after ingestion: the
three loaded tables (finite CSV values) are normalized, then each test row
is scored, screened and classified.  `none` is a run aborted by an
uncaught exception, producing no report. -/
noncomputable def pipeline (espectros_teste banco_referencia banco_adulterantes :
    List (List ℚ)) : Option (List Resultado) :=
  processarAmostras
    (preprocessar_espectros (banco_referencia.map (fun r => r.map real)))
    (preprocessar_espectros (banco_adulterantes.map (fun r => r.map real)))
    (preprocessar_espectros (espectros_teste.map (fun r => r.map real)))

/-! ## Helper lemmas about the adulterant detector -/

theorem npGe_of_length_eq (t r : List FloatVal) (h : r.length = t.length) :
    npGe t r = some (List.zipWith fge t r) := by
  rw [npGe, if_pos h.symm]

theorem npGe_none_iff (t r : List FloatVal) :
    npGe t r = none ↔ t.length ≠ r.length ∧ t.length ≠ 1 ∧ r.length ≠ 1 := by
  rw [npGe]
  split_ifs with h1 h2 h3
  · simp [h1]
  · simp [h2]
  · simp [h3]
  · simp [h1, h2, h3]

theorem detectLoop_cons_some (t r : List FloatVal) (rs : List (List FloatVal))
    (k : ℕ) (cmp : List Bool) (hc : npGe t r = some cmp) :
    detectLoop t (r :: rs) k =
      if cmp.any id then k :: detectLoop t rs (k + 1) else detectLoop t rs (k + 1) := by
  rw [detectLoop, hc]

theorem detectLoop_cons_none (t r : List FloatVal) (rs : List (List FloatVal))
    (k : ℕ) (hc : npGe t r = none) :
    detectLoop t (r :: rs) k = [] := by
  rw [detectLoop, hc]

theorem detectLoop_le (t : List FloatVal) :
    ∀ (rows : List (List FloatVal)) (k n : ℕ), n ∈ detectLoop t rows k → k ≤ n := by
  intro rows
  induction rows with
  | nil => intro k n h; simp [detectLoop] at h
  | cons r rs ih =>
    intro k n h
    cases hc : npGe t r with
    | none =>
      rw [detectLoop_cons_none t r rs k hc] at h
      simp at h
    | some cmp =>
      rw [detectLoop_cons_some t r rs k cmp hc] at h
      split at h
      · rcases List.mem_cons.mp h with rfl | h'
        · exact le_refl n
        · exact Nat.le_of_succ_le (ih (k + 1) n h')
      · exact Nat.le_of_succ_le (ih (k + 1) n h)

theorem detectLoop_iff (t : List FloatVal) :
    ∀ (rows : List (List FloatVal)) (k i : ℕ) (r : List FloatVal),
      (∀ r' ∈ rows, r'.length = t.length) → rows[i]? = some r →
      ((k + i) ∈ detectLoop t rows k ↔ anyGe t r = true) := by
  intro rows
  induction rows with
  | nil => intro k i r _ hi; simp at hi
  | cons r0 rest ih =>
    intro k i r hlen hi
    have hlen' : ∀ r' ∈ rest, r'.length = t.length := fun r' hr' =>
      hlen r' (List.mem_cons_of_mem _ hr')
    rw [detectLoop_cons_some t r0 rest k (List.zipWith fge t r0)
      (npGe_of_length_eq t r0 (hlen r0 (List.mem_cons_self _ _)))]
    cases i with
    | zero =>
      have hr : r0 = r := by simpa using hi
      subst hr
      cases hag : anyGe t r0 with
      | true =>
        have hagz : (List.zipWith fge t r0).any id = true := hag
        rw [if_pos hagz]
        simp [hag]
      | false =>
        have hagz : (List.zipWith fge t r0).any id = false := hag
        rw [if_neg (by simp [hagz])]
        simp only [hag, Bool.false_eq_true, iff_false]
        intro hmem
        have := detectLoop_le t rest (k + 1) (k + 0) hmem
        omega
    | succ j =>
      have hi' : rest[j]? = some r := by simpa using hi
      have hkj : k + (j + 1) = (k + 1) + j := by omega
      cases hag : anyGe t r0 with
      | true =>
        have hagz : (List.zipWith fge t r0).any id = true := hag
        rw [if_pos hagz, hkj]
        rw [List.mem_cons]
        have : ¬((k + 1) + j = k) := by omega
        simp only [this, false_or]
        exact ih (k + 1) j r hlen' hi'
      | false =>
        have hagz : (List.zipWith fge t r0).any id = false := hag
        rw [if_neg (by simp [hagz]), hkj]
        exact ih (k + 1) j r hlen' hi'

theorem anyGe_real_iff : ∀ (t r : List ℚ),
    anyGe (t.map real) (r.map real) = true ↔
      ∃ (j : ℕ) (a b : ℚ), t[j]? = some a ∧ r[j]? = some b ∧ b ≤ a := by
  intro t
  induction t with
  | nil => intro r; simp [anyGe]
  | cons x xs ih =>
    intro r
    cases r with
    | nil => simp [anyGe]
    | cons y ys =>
      simp only [List.map_cons, anyGe, List.zipWith_cons_cons, List.any_cons, id_eq,
        Bool.or_eq_true, fge, decide_eq_true_eq]
      constructor
      · rintro (h1 | h1)
        · exact ⟨0, x, y, by simp, by simp, h1⟩
        · obtain ⟨j, a, b, ha, hb, hba⟩ := (ih ys).mp h1
          exact ⟨j + 1, a, b, by simpa using ha, by simpa using hb, hba⟩
      · rintro ⟨j, a, b, ha, hb, hba⟩
        cases j with
        | zero =>
          left
          simp only [List.getElem?_cons_zero, Option.some.injEq] at ha hb
          rw [← ha, ← hb] at hba
          exact hba
        | succ j =>
          right
          exact (ih ys).mpr ⟨j, a, b, by simpa using ha, by simpa using hb, hba⟩

/-- Claim C1: the purity classifier returns the Pure label ("Alta
potencial de pureza") exactly when the best similarity is at least 0.9 and
no adulterant was detected, and the Adulterated alert in every other case;
in particular similarity 0.9 with no findings is Pure, 0.8999 with no
findings is Adulterated, and 0.95 with one finding is Adulterated. -/
theorem C1_purity_classifier :
    (∀ (s : ℝ) (f : List ℕ),
      (determinar_pureza s f = "Alta potencial de pureza" ↔ 0.9 ≤ s ∧ f = []) ∧
      (determinar_pureza s f = "Alerta: Produto possivelmente adulterado" ↔
        ¬(0.9 ≤ s ∧ f = []))) ∧
    determinar_pureza 0.9 [] = "Alta potencial de pureza" ∧
    determinar_pureza 0.8999 [] = "Alerta: Produto possivelmente adulterado" ∧
    determinar_pureza 0.95 [0] = "Alerta: Produto possivelmente adulterado" := by
  refine ⟨fun s f => ?_, ?_, ?_, ?_⟩
  · rw [determinar_pureza]
    split_ifs with h <;> simp [h]
  · rw [determinar_pureza, if_pos (by norm_num)]
  · rw [determinar_pureza, if_neg (by rintro ⟨h, -⟩; norm_num at h)]
  · rw [determinar_pureza, if_neg (by rintro ⟨-, h⟩; simp at h)]

/-- Claim C2: over a shared column schema, the detector flags adulterant
row `i` exactly when some column has the test profile's value at least the
adulterant row's value there (a single such column suffices).  Proved for
the app script, whose rule is `>=`; the REPL-transcript near-duplicate
uses strict `>`. -/
theorem C2_detector_rule (t : List ℚ) (T : List (List ℚ))
    (h : ∀ r ∈ T, r.length = t.length) (i : ℕ) (r : List ℚ)
    (hi : T[i]? = some r) :
    i ∈ detectar_adulterantes (t.map real) (T.map (fun row => row.map real)) ↔
      ∃ (j : ℕ) (a b : ℚ), t[j]? = some a ∧ r[j]? = some b ∧ b ≤ a := by
  have hlen : ∀ r' ∈ T.map (fun row => row.map real),
      r'.length = (t.map real).length := by
    intro r' hr'
    obtain ⟨row, hrow, rfl⟩ := List.mem_map.mp hr'
    simp [h row hrow]
  have hi' : (T.map (fun row => row.map real))[i]? = some (r.map real) := by
    simp [hi]
  have hmain := detectLoop_iff (t.map real) (T.map (fun row => row.map real))
    0 i (r.map real) hlen hi'
  rw [Nat.zero_add] at hmain
  rw [detectar_adulterantes, hmain, anyGe_real_iff]

/-- Concrete instance of `C2_detector_rule`: profile `[1]` against the
rows `[[0], [2]]` flags exactly row 0. -/
theorem C2_detector_rule_witness :
    (∀ r ∈ [[(0 : ℚ)], [(2 : ℚ)]], r.length = [(1 : ℚ)].length) ∧
    ([[(0 : ℚ)], [(2 : ℚ)]][0]? = some [(0 : ℚ)]) ∧
    (0 ∈ detectar_adulterantes ([(1 : ℚ)].map real)
        ([[(0 : ℚ)], [(2 : ℚ)]].map (fun row => row.map real)) ↔
      ∃ (j : ℕ) (a b : ℚ), [(1 : ℚ)][j]? = some a ∧ [(0 : ℚ)][j]? = some b ∧ b ≤ a) :=
  ⟨by decide, by decide,
    C2_detector_rule [1] [[0], [2]] (by decide) 0 [0] (by decide)⟩

/-! ## Monotonicity of detection in the test profile -/

theorem fge_mono {a a' : ℚ} (h : a ≤ a') :
    ∀ y, fge (real a) y = true → fge (real a') y = true := by
  intro y
  cases y with
  | real b =>
    simp only [fge, decide_eq_true_eq]
    exact fun h2 => h2.trans h
  | nan => simp [fge]
  | inf => simp [fge]
  | ninf => simp [fge]

theorem anyGe_mono (u v : List FloatVal) (a a' : ℚ) (h : a ≤ a') :
    ∀ r, anyGe (u ++ real a :: v) r = true → anyGe (u ++ real a' :: v) r = true := by
  induction u with
  | nil =>
    intro r
    cases r with
    | nil => simp [anyGe]
    | cons y ys =>
      simp only [List.nil_append, anyGe, List.zipWith_cons_cons, List.any_cons, id_eq,
        Bool.or_eq_true]
      rintro (h1 | h1)
      · exact Or.inl (fge_mono h y h1)
      · exact Or.inr h1
  | cons x u' ih =>
    intro r
    cases r with
    | nil => simp [anyGe]
    | cons y ys =>
      simp only [List.cons_append, anyGe, List.zipWith_cons_cons, List.any_cons, id_eq,
        Bool.or_eq_true]
      rintro (h1 | h1)
      · exact Or.inl h1
      · exact Or.inr (ih ys h1)

theorem mapGe_head_mono (a a' : ℚ) (h : a ≤ a') (r : List FloatVal)
    (hany : (r.map (fun y => fge (real a) y)).any id = true) :
    (r.map (fun y => fge (real a') y)).any id = true := by
  rw [List.any_eq_true] at hany ⊢
  obtain ⟨b, hb, hid⟩ := hany
  obtain ⟨y, hy, rfl⟩ := List.mem_map.mp hb
  exact ⟨fge (real a') y, List.mem_map_of_mem _ hy, fge_mono h y hid⟩

theorem mapGe_left_mono (u v : List FloatVal) (a a' : ℚ) (h : a ≤ a') (y : FloatVal)
    (hany : ((u ++ real a :: v).map (fun x => fge x y)).any id = true) :
    ((u ++ real a' :: v).map (fun x => fge x y)).any id = true := by
  simp only [List.map_append, List.map_cons, List.any_append, List.any_cons, id_eq,
    Bool.or_eq_true] at hany ⊢
  rcases hany with h1 | h1 | h1
  · exact Or.inl h1
  · exact Or.inr (Or.inl (fge_mono h y h1))
  · exact Or.inr (Or.inr h1)

theorem npGe_some_mono (u v : List FloatVal) (a a' : ℚ) (h : a ≤ a')
    (r : List FloatVal) (cmp : List Bool)
    (hc : npGe (u ++ real a :: v) r = some cmp) :
    ∃ cmp', npGe (u ++ real a' :: v) r = some cmp' ∧
      (cmp.any id = true → cmp'.any id = true) := by
  have hL : (u ++ real a' :: v).length = (u ++ real a :: v).length := by simp
  rw [npGe] at hc
  split_ifs at hc with h1 h2 h3
  · have hcmp := Option.some.inj hc
    refine ⟨List.zipWith fge (u ++ real a' :: v) r, ?_, ?_⟩
    · rw [npGe, if_pos (hL.trans h1)]
    · intro hany
      have h0 : anyGe (u ++ real a :: v) r = true := by
        rw [show anyGe (u ++ real a :: v) r =
          (List.zipWith fge (u ++ real a :: v) r).any id from rfl, hcmp]
        exact hany
      exact anyGe_mono u v a a' h r h0
  · have h2' : u.length + (v.length + 1) = 1 := by simpa using h2
    have hu : u = [] := List.length_eq_zero.mp (by omega)
    have hv : v = [] := List.length_eq_zero.mp (by omega)
    subst hu
    subst hv
    have hcmp := Option.some.inj hc
    refine ⟨r.map (fun y => fge (real a') y), ?_, ?_⟩
    · rw [npGe, if_neg (fun hcontra => h1 (by rw [← hL]; exact hcontra)),
        if_pos (hL.trans h2)]
      rfl
    · intro hany
      rw [← hcmp] at hany
      have hany' : (r.map (fun y => fge (real a) y)).any id = true := hany
      exact mapGe_head_mono a a' h r hany'
  · have hcmp := Option.some.inj hc
    refine ⟨(u ++ real a' :: v).map (fun x => fge x r.headI), ?_, ?_⟩
    · rw [npGe, if_neg (fun hcontra => h1 (by rw [← hL]; exact hcontra)),
        if_neg (fun hcontra => h2 (by rw [← hL]; exact hcontra)), if_pos h3]
    · intro hany
      rw [← hcmp] at hany
      exact mapGe_left_mono u v a a' h r.headI hany

theorem detectLoop_mono (u v : List FloatVal) (a a' : ℚ) (h : a ≤ a') :
    ∀ (rows : List (List FloatVal)) (k n : ℕ),
      n ∈ detectLoop (u ++ real a :: v) rows k →
      n ∈ detectLoop (u ++ real a' :: v) rows k := by
  intro rows
  induction rows with
  | nil => intro k n hn; simp [detectLoop] at hn
  | cons r rs ih =>
    intro k n hn
    cases hc : npGe (u ++ real a :: v) r with
    | none =>
      rw [detectLoop_cons_none _ r rs k hc] at hn
      simp at hn
    | some cmp =>
      rw [detectLoop_cons_some _ r rs k cmp hc] at hn
      obtain ⟨cmp', hc', hmono⟩ := npGe_some_mono u v a a' h r cmp hc
      rw [detectLoop_cons_some _ r rs k cmp' hc']
      by_cases hany : cmp.any id = true
      · rw [if_pos hany] at hn
        rw [if_pos (hmono hany)]
        rcases List.mem_cons.mp hn with rfl | hn'
        · exact List.mem_cons_self _ _
        · exact List.mem_cons_of_mem _ (ih (k + 1) n hn')
      · rw [if_neg hany] at hn
        have hn' := ih (k + 1) n hn
        split
        · exact List.mem_cons_of_mem _ hn'
        · exact hn'

/-- Claim C9: detection is monotone in the test profile.  If row `X` is
flagged for profile `u ++ [real a] ++ v` and `a ≤ a'` (one compound value
increased, all else equal), then `X` is also flagged for
`u ++ [real a'] ++ v`. -/
theorem C9_detection_monotone (u v : List FloatVal) (a a' : ℚ)
    (T : List (List FloatVal)) (X : ℕ) (h : a ≤ a')
    (hX : X ∈ detectar_adulterantes (u ++ real a :: v) T) :
    X ∈ detectar_adulterantes (u ++ real a' :: v) T :=
  detectLoop_mono u v a a' h T 0 X hX

/-- Concrete instance of `C9_detection_monotone`: profile `[0]` flags the
adulterant row `[0]`, and so does the increased profile `[1]`. -/
theorem C9_detection_monotone_witness :
    (0 : ℚ) ≤ 1 ∧ 0 ∈ detectar_adulterantes [real 0] [[real 0]] ∧
    0 ∈ detectar_adulterantes [real 1] [[real 0]] :=
  ⟨by decide, by decide,
    C9_detection_monotone [] [] 0 1 [[real 0]] 0 (by decide) (by decide)⟩

/-! ## Helper lemmas about the normalizer -/

theorem pdSum_finite (row : List FloatVal) (h : ∀ x ∈ row, x.isFinite = true) :
    pdSum row = real (qsumRow row) := by
  induction row with
  | nil => rfl
  | cons x rest ih =>
    have hrest := ih (fun y hy => h y (List.mem_cons_of_mem _ hy))
    obtain ⟨q, rfl⟩ : ∃ q, x = real q := by
      cases x with
      | real q => exact ⟨q, rfl⟩
      | nan => exact absurd (h nan (List.mem_cons_self _ _)) (by simp [isFinite])
      | inf => exact absurd (h inf (List.mem_cons_self _ _)) (by simp [isFinite])
      | ninf => exact absurd (h ninf (List.mem_cons_self _ _)) (by simp [isFinite])
    rw [pdSum, List.filter_cons_of_pos (by simp)] at *
    rw [fsum] at *
    simp only [List.foldr_cons]
    rw [show List.foldr fadd (real 0) (List.filter (fun x => decide (x ≠ nan)) rest) =
      real (qsumRow rest) from hrest]
    rw [fadd]
    simp [qsumRow, toQ]

theorem sum_map_div (l : List ℚ) (c : ℚ) : (l.map (fun x => x / c)).sum = l.sum / c := by
  induction l with
  | nil => simp
  | cons x xs ih => simp [ih, add_div]

theorem normRow_finite (row : List FloatVal) (hf : ∀ x ∈ row, x.isFinite = true)
    (hne : qsumRow row ≠ 0) :
    row.map (fun x => fdiv x (pdSum row)) = row.map (fun x => real (toQ x / qsumRow row)) := by
  rw [pdSum_finite row hf]
  apply List.map_congr_left
  intro x hx
  obtain ⟨q, rfl⟩ : ∃ q, x = real q := by
    cases x with
    | real q => exact ⟨q, rfl⟩
    | nan => exact absurd (hf nan hx) (by simp [isFinite])
    | inf => exact absurd (hf inf hx) (by simp [isFinite])
    | ninf => exact absurd (hf ninf hx) (by simp [isFinite])
  rw [fdiv, if_neg hne, toQ]

theorem normRow_sum_one (row : List FloatVal) (hne : qsumRow row ≠ 0) :
    (row.map (fun x => toQ x / qsumRow row)).sum = 1 := by
  rw [show row.map (fun x => toQ x / qsumRow row) =
      (row.map toQ).map (fun q => q / qsumRow row) from by rw [List.map_map]; rfl]
  rw [sum_map_div]
  exact div_self hne

theorem fdiv_zero_not_finite : ∀ x : FloatVal, (fdiv x (real 0)).isFinite = false := by
  intro x
  cases x with
  | real a =>
    rw [fdiv, if_pos rfl]
    split_ifs <;> rfl
  | nan => rfl
  | inf => rw [fdiv, if_pos le_rfl]; rfl
  | ninf => rw [fdiv, if_pos le_rfl]; rfl

/-- Claim C3 counterexample: the normalizer raises nothing on an all-zero
(zero-sum) row; it returns a table containing NaN values (each cell is
`0 / 0`). -/
theorem C3_counterexample_zero_row :
    preprocessar_espectros [[real 0, real 0]] = [[nan, nan]] := by
  simp [preprocessar_espectros, pdSum, fsum, fadd, fdiv]

/-- Claim C3 amended: on a row whose (pandas) sum is zero, the normalizer
does not fail; it returns the table in which every cell of that row is
divided by zero, hence non-finite (NaN for a zero cell, an infinity for a
nonzero finite cell), silently passed downstream. -/
theorem C3_amended_zero_sum_row (T : List (List FloatVal)) (i : ℕ)
    (row : List FloatVal) (hrow : T[i]? = some row)
    (hsum : pdSum row = real 0) :
    (preprocessar_espectros T)[i]? = some (row.map (fun x => fdiv x (real 0))) ∧
    ∀ x ∈ row.map (fun x => fdiv x (real 0)), x.isFinite = false := by
  constructor
  · rw [preprocessar_espectros, List.getElem?_map, hrow, Option.map_some', hsum]
  · intro x hx
    obtain ⟨y, -, rfl⟩ := List.mem_map.mp hx
    exact fdiv_zero_not_finite y

/-- Concrete instance of `C3_amended_zero_sum_row` at the all-zero row. -/
theorem C3_amended_zero_sum_row_witness :
    pdSum [real 0, real 0] = real 0 ∧
    ((preprocessar_espectros [[real 0, real 0]])[0]? =
        some ([real 0, real 0].map (fun x => fdiv x (real 0))) ∧
      ∀ x ∈ [real 0, real 0].map (fun x => fdiv x (real 0)), x.isFinite = false) :=
  ⟨by simp [pdSum, fsum, fadd],
    C3_amended_zero_sum_row [[real 0, real 0]] 0 [real 0, real 0] (by decide)
      (by simp [pdSum, fsum, fadd])⟩

/-- Claim C4: on a table of finite cells whose rows each have a positive
sum, the normalizer keeps the shape, row `i` becomes row `i` divided
cellwise by its sum, and each output row's values sum exactly to 1. -/
theorem C4_normalizer (T : List (List FloatVal))
    (hfin : ∀ row ∈ T, ∀ x ∈ row, x.isFinite = true)
    (hpos : ∀ row ∈ T, 0 < qsumRow row) :
    (preprocessar_espectros T).length = T.length ∧
    ∀ (i : ℕ) (row : List FloatVal), T[i]? = some row →
      (preprocessar_espectros T)[i]? =
        some (row.map (fun x => real (toQ x / qsumRow row))) ∧
      (row.map (fun x => toQ x / qsumRow row)).sum = 1 := by
  refine ⟨by simp [preprocessar_espectros], fun i row hi => ?_⟩
  have hrow : row ∈ T := List.getElem?_mem hi
  have hne : qsumRow row ≠ 0 := ne_of_gt (hpos row hrow)
  constructor
  · rw [preprocessar_espectros, List.getElem?_map, hi, Option.map_some',
      normRow_finite row (hfin row hrow) hne]
  · exact normRow_sum_one row hne

/-- Concrete instance of `C4_normalizer` at the table `[[1, 3]]`. -/
theorem C4_normalizer_witness :
    (∀ row ∈ [[real 1, real 3]], ∀ x ∈ row, x.isFinite = true) ∧
    (∀ row ∈ [[real 1, real 3]], 0 < qsumRow row) ∧
    ((preprocessar_espectros [[real 1, real 3]]).length = [[real 1, real 3]].length ∧
      ∀ (i : ℕ) (row : List FloatVal), [[real 1, real 3]][i]? = some row →
        (preprocessar_espectros [[real 1, real 3]])[i]? =
          some (row.map (fun x => real (toQ x / qsumRow row))) ∧
        (row.map (fun x => toQ x / qsumRow row)).sum = 1) :=
  ⟨by decide,
    by
      intro row hr
      simp only [List.mem_singleton] at hr
      subst hr
      simp [qsumRow, toQ]
      norm_num,
    C4_normalizer [[real 1, real 3]] (by decide)
      (by
        intro row hr
        simp only [List.mem_singleton] at hr
        subst hr
        simp [qsumRow, toQ]
        norm_num)⟩

/-- Claim C5: normalization is idempotent on tables of finite cells whose
rows each have a positive sum — the second pass divides each row by 1 and
returns it unchanged (exact equality, hence within any tolerance). -/
theorem C5_normalize_idempotent (T : List (List FloatVal))
    (hfin : ∀ row ∈ T, ∀ x ∈ row, x.isFinite = true)
    (hpos : ∀ row ∈ T, 0 < qsumRow row) :
    preprocessar_espectros (preprocessar_espectros T) = preprocessar_espectros T := by
  have key : ∀ row' ∈ preprocessar_espectros T,
      row'.map (fun x => fdiv x (pdSum row')) = row' := by
    intro row' hr'
    rw [preprocessar_espectros] at hr'
    obtain ⟨row, hrow, rfl⟩ := List.mem_map.mp hr'
    have hf := hfin row hrow
    have hne : qsumRow row ≠ 0 := ne_of_gt (hpos row hrow)
    rw [normRow_finite row hf hne]
    have hf' : ∀ x ∈ row.map (fun x => real (toQ x / qsumRow row)), x.isFinite = true := by
      intro x hx
      obtain ⟨y, -, rfl⟩ := List.mem_map.mp hx
      rfl
    have hq : qsumRow (row.map (fun x => real (toQ x / qsumRow row))) = 1 := by
      rw [qsumRow, List.map_map,
        show (toQ ∘ fun x => real (toQ x / qsumRow row)) =
          (fun x => toQ x / qsumRow row) from rfl]
      exact normRow_sum_one row hne
    rw [pdSum_finite _ hf', hq]
    have hid : ∀ x ∈ row.map (fun x => real (toQ x / qsumRow row)),
        fdiv x (real 1) = id x := by
      intro x hx
      obtain ⟨y, -, rfl⟩ := List.mem_map.mp hx
      rw [fdiv, if_neg one_ne_zero, div_one]
      rfl
    exact (List.map_congr_left hid).trans (List.map_id _)
  exact (List.map_congr_left key).trans (List.map_id _)

/-- Concrete instance of `C5_normalize_idempotent` at the table `[[2, 2]]`. -/
theorem C5_normalize_idempotent_witness :
    (∀ row ∈ [[real 2, real 2]], ∀ x ∈ row, x.isFinite = true) ∧
    (∀ row ∈ [[real 2, real 2]], 0 < qsumRow row) ∧
    preprocessar_espectros (preprocessar_espectros [[real 2, real 2]]) =
      preprocessar_espectros [[real 2, real 2]] :=
  ⟨by decide,
    by
      intro row hr
      simp only [List.mem_singleton] at hr
      subst hr
      simp [qsumRow, toQ],
    C5_normalize_idempotent [[real 2, real 2]] (by decide)
      (by
        intro row hr
        simp only [List.mem_singleton] at hr
        subst hr
        simp [qsumRow, toQ])⟩

/-! ## Helper lemmas about cosine similarity -/

theorem sumSq_nonneg (a : List ℚ) : 0 ≤ sumSq a :=
  List.sum_nonneg (by
    intro x hx
    obtain ⟨y, -, rfl⟩ := List.mem_map.mp hx
    exact sq_nonneg y)

theorem dotQ_sq_le (a : List ℚ) : ∀ b : List ℚ, (dotQ a b) ^ 2 ≤ sumSq a * sumSq b := by
  induction a with
  | nil =>
    intro b
    have h1 : dotQ [] b = 0 := by simp [dotQ]
    have h2 : sumSq ([] : List ℚ) = 0 := by simp [sumSq]
    rw [h1, h2]
    simp
  | cons x xs ih =>
    intro b
    cases b with
    | nil =>
      have h1 : dotQ (x :: xs) [] = 0 := by simp [dotQ]
      have h2 : sumSq ([] : List ℚ) = 0 := by simp [sumSq]
      rw [h1, h2]
      simp
    | cons y ys =>
      have hA := sumSq_nonneg xs
      have hB := sumSq_nonneg ys
      have hd := ih ys
      have hg : dotQ (x :: xs) (y :: ys) = x * y + dotQ xs ys := by
        simp [dotQ]
      have hs1 : sumSq (x :: xs) = x ^ 2 + sumSq xs := by simp [sumSq]
      have hs2 : sumSq (y :: ys) = y ^ 2 + sumSq ys := by simp [sumSq]
      rw [hg, hs1, hs2]
      rcases eq_or_lt_of_le hA with hA0 | hA0
      · have h2 : dotQ xs ys ^ 2 = 0 :=
          le_antisymm (by nlinarith) (sq_nonneg _)
        have hd0 : dotQ xs ys = 0 := sq_eq_zero_iff.mp h2
        rw [hd0, ← hA0]
        nlinarith [mul_nonneg (sq_nonneg x) hB]
      · nlinarith [sq_nonneg (x * dotQ xs ys - sumSq xs * y),
          mul_nonneg (add_nonneg (sq_nonneg x) hA0.le) (sub_nonneg.mpr hd)]

theorem sumSq_eq_zero_all (a : List ℚ) (h : sumSq a = 0) : ∀ x ∈ a, x = 0 := by
  induction a with
  | nil => intro x hx; simp at hx
  | cons z zs ih =>
    have hs : sumSq (z :: zs) = z ^ 2 + sumSq zs := by simp [sumSq]
    rw [hs] at h
    have hz2 : z ^ 2 = 0 :=
      le_antisymm (by nlinarith [sumSq_nonneg zs]) (sq_nonneg z)
    have hzs : sumSq zs = 0 := by nlinarith [sq_nonneg z]
    intro x hx
    rcases List.mem_cons.mp hx with rfl | hx'
    · exact sq_eq_zero_iff.mp hz2
    · exact ih hzs x hx'

theorem dotQ_eq_zero_left (a : List ℚ) :
    ∀ b : List ℚ, (∀ x ∈ a, x = 0) → dotQ a b = 0 := by
  induction a with
  | nil => intro b _; simp [dotQ]
  | cons x xs ih =>
    intro b h
    cases b with
    | nil => simp [dotQ]
    | cons y ys =>
      have hg : dotQ (x :: xs) (y :: ys) = x * y + dotQ xs ys := by simp [dotQ]
      rw [hg, h x (List.mem_cons_self _ _),
        ih ys (fun z hz => h z (List.mem_cons_of_mem _ hz))]
      ring

theorem dotQ_eq_zero_right (a : List ℚ) :
    ∀ b : List ℚ, (∀ x ∈ b, x = 0) → dotQ a b = 0 := by
  induction a with
  | nil => intro b _; simp [dotQ]
  | cons x xs ih =>
    intro b h
    cases b with
    | nil => simp [dotQ]
    | cons y ys =>
      have hg : dotQ (x :: xs) (y :: ys) = x * y + dotQ xs ys := by simp [dotQ]
      rw [hg, h y (List.mem_cons_self _ _),
        ih ys (fun z hz => h z (List.mem_cons_of_mem _ hz))]
      ring

theorem dotQ_self (a : List ℚ) : dotQ a a = sumSq a := by
  induction a with
  | nil => simp [dotQ, sumSq]
  | cons x xs ih =>
    have hg : dotQ (x :: xs) (x :: xs) = x * x + dotQ xs xs := by simp [dotQ]
    have hs : sumSq (x :: xs) = x ^ 2 + sumSq xs := by simp [sumSq]
    rw [hg, hs, ih, sq]

theorem cosSim_mem_Icc (a b : List ℚ) : -1 ≤ cosSim a b ∧ cosSim a b ≤ 1 := by
  by_cases ha : sumSq a = 0
  · have hdot : dotQ a b = 0 := dotQ_eq_zero_left a b (sumSq_eq_zero_all a ha)
    rw [cosSim, hdot]
    norm_num
  · by_cases hb : sumSq b = 0
    · have hdot : dotQ a b = 0 := dotQ_eq_zero_right a b (sumSq_eq_zero_all b hb)
      rw [cosSim, hdot]
      norm_num
    · rw [cosSim, if_neg ha, if_neg hb]
      have haQ : 0 < sumSq a := lt_of_le_of_ne (sumSq_nonneg a) (Ne.symm ha)
      have hbQ : 0 < sumSq b := lt_of_le_of_ne (sumSq_nonneg b) (Ne.symm hb)
      have hsa : (0 : ℝ) < Real.sqrt (sumSq a : ℝ) :=
        Real.sqrt_pos.mpr (by exact_mod_cast haQ)
      have hsb : (0 : ℝ) < Real.sqrt (sumSq b : ℝ) :=
        Real.sqrt_pos.mpr (by exact_mod_cast hbQ)
      have hden : (0 : ℝ) < Real.sqrt (sumSq a : ℝ) * Real.sqrt (sumSq b : ℝ) :=
        mul_pos hsa hsb
      have habs : |(dotQ a b : ℝ)| ≤
          Real.sqrt (sumSq a : ℝ) * Real.sqrt (sumSq b : ℝ) := by
        rw [← Real.sqrt_mul (by positivity)]
        apply Real.abs_le_sqrt
        exact_mod_cast dotQ_sq_le a b
      have hq : |(dotQ a b : ℝ) /
          (Real.sqrt (sumSq a : ℝ) * Real.sqrt (sumSq b : ℝ))| ≤ 1 := by
        rw [abs_div, abs_of_pos hden]
        exact div_le_one_of_le₀ habs (le_of_lt hden)
      exact abs_le.mp hq

theorem cosSim_self (a : List ℚ) (ha : sumSq a ≠ 0) : cosSim a a = 1 := by
  rw [cosSim, if_neg ha, dotQ_self,
    Real.mul_self_sqrt (by exact_mod_cast sumSq_nonneg a)]
  exact div_self (by exact_mod_cast ha)

theorem map_toQ_map_real (l : List ℚ) : (l.map real).map toQ = l := by
  rw [List.map_map, show (toQ ∘ real) = id from rfl, List.map_id]

theorem all_isFinite_map_real (l : List ℚ) : (l.map real).all isFinite = true := by
  rw [List.all_eq_true]
  intro x hx
  obtain ⟨y, -, rfl⟩ := List.mem_map.mp hx
  rfl

theorem calcular_similaridade_mem (t : List FloatVal) :
    ∀ (refs : List (List FloatVal)) (s : ℝ), s ∈ calcular_similaridade t refs →
      ∃ r ∈ refs, s = cosSim (t.map toQ) (r.map toQ) := by
  intro refs
  induction refs with
  | nil =>
    intro s hs
    rw [calcular_similaridade] at hs
    simp at hs
  | cons r rs ih =>
    intro s hs
    rw [calcular_similaridade] at hs
    split at hs
    · rcases List.mem_cons.mp hs with rfl | hs'
      · exact ⟨r, List.mem_cons_self _ _, rfl⟩
      · obtain ⟨r', hr', rfl⟩ := ih s hs'
        exact ⟨r', List.mem_cons_of_mem _ hr', rfl⟩
    · simp at hs

theorem calcular_similaridade_full (t : List FloatVal) (hft : t.all isFinite = true) :
    ∀ refs : List (List FloatVal),
      (∀ r ∈ refs, r.all isFinite = true ∧ r.length = t.length) →
      calcular_similaridade t refs =
        refs.map (fun r => cosSim (t.map toQ) (r.map toQ)) := by
  intro refs
  induction refs with
  | nil => intro _; rw [calcular_similaridade]; rfl
  | cons r rs ih =>
    intro h
    obtain ⟨hfr, hlr⟩ := h r (List.mem_cons_self _ _)
    rw [calcular_similaridade, if_pos ⟨hft, hfr, hlr⟩, List.map_cons,
      ih (fun r' hr' => h r' (List.mem_cons_of_mem _ hr'))]

/-- Claim C6 counterexample: on the zero-norm test profile `[0, 0]` the
scorer raises nothing; it returns the numeric score 0.0 for the pair
(sklearn replaces a zero norm by 1, making the similarity 0). -/
theorem C6_counterexample_zero_norm :
    calcular_similaridade [real 0, real 0] [[real 1, real 0]] = [0] := by
  rw [calcular_similaridade, if_pos ⟨rfl, rfl, rfl⟩, calcular_similaridade]
  have hdot : dotQ ([real 0, real 0].map toQ) ([real 1, real 0].map toQ) = 0 := by
    norm_num [dotQ, toQ]
  rw [cosSim, hdot]
  norm_num

/-- Claim C6 amended: on valid (finite, schema-matched) inputs the scorer
never fails on a zero norm; a zero-norm test profile gets the numeric
score 0.0 against every reference row, and a zero-norm reference row gets
the numeric score 0.0 whatever the test profile (sklearn replaces a zero
norm by 1 instead of raising). -/
theorem C6_amended_zero_norm (t : List FloatVal) (refs : List (List FloatVal))
    (hft : t.all isFinite = true)
    (hr : ∀ r ∈ refs, r.all isFinite = true ∧ r.length = t.length) :
    (sumSq (t.map toQ) = 0 →
      calcular_similaridade t refs = refs.map (fun _ => (0 : ℝ))) ∧
    ∀ (i : ℕ) (r : List FloatVal), refs[i]? = some r → sumSq (r.map toQ) = 0 →
      (calcular_similaridade t refs)[i]? = some (0 : ℝ) := by
  constructor
  · intro h0
    rw [calcular_similaridade_full t hft refs hr]
    apply List.map_congr_left
    intro r _
    have hdot : dotQ (t.map toQ) (r.map toQ) = 0 :=
      dotQ_eq_zero_left _ _ (sumSq_eq_zero_all _ h0)
    rw [cosSim, hdot]
    norm_num
  · intro i r hi h0
    rw [calcular_similaridade_full t hft refs hr, List.getElem?_map, hi,
      Option.map_some']
    have hdot : dotQ (t.map toQ) (r.map toQ) = 0 :=
      dotQ_eq_zero_right _ _ (sumSq_eq_zero_all _ h0)
    rw [cosSim, hdot]
    norm_num

/-- Concrete instance of `C6_amended_zero_norm` at the zero-norm profile
`[0]` against the zero-norm reference row `[0]`, exercising both parts. -/
theorem C6_amended_zero_norm_witness :
    ([real 0] : List FloatVal).all isFinite = true ∧
    (∀ r ∈ [[real 0]], r.all isFinite = true ∧
      r.length = ([real 0] : List FloatVal).length) ∧
    sumSq (([real 0] : List FloatVal).map toQ) = 0 ∧
    calcular_similaridade [real 0] [[real 0]] = [[real 0]].map (fun _ => (0 : ℝ)) ∧
    (calcular_similaridade [real 0] [[real 0]])[0]? = some (0 : ℝ) :=
  ⟨rfl, by decide, by norm_num [sumSq, toQ],
    (C6_amended_zero_norm [real 0] [[real 0]] rfl (by decide)).1
      (by norm_num [sumSq, toQ]),
    (C6_amended_zero_norm [real 0] [[real 0]] rfl (by decide)).2 0 [real 0]
      (by decide) (by norm_num [sumSq, toQ])⟩

/-- Claim C7: with a nonzero test profile and schema-matched nonzero
reference rows, every score the scorer returns lies in the interval
`[-1, 1]`, one score is produced per reference row, and scoring the
profile against an exact copy of itself returns exactly 1. -/
theorem C7_similarity_range (t : List ℚ) (refs : List (List ℚ))
    (ht : sumSq t ≠ 0)
    (hr : ∀ r ∈ refs, r.length = t.length ∧ sumSq r ≠ 0) :
    (∀ s ∈ calcular_similaridade (t.map real) (refs.map (fun r => r.map real)),
      -1 ≤ s ∧ s ≤ 1) ∧
    (calcular_similaridade (t.map real) (refs.map (fun r => r.map real))).length =
      refs.length ∧
    calcular_similaridade (t.map real) [t.map real] = [1] := by
  refine ⟨?_, ?_, ?_⟩
  · intro s hs
    obtain ⟨r', -, rfl⟩ := calcular_similaridade_mem (t.map real) _ s hs
    exact cosSim_mem_Icc _ _
  · rw [calcular_similaridade_full (t.map real) (all_isFinite_map_real t)]
    · rw [List.length_map, List.length_map]
    · intro r' hr'
      obtain ⟨r, hrmem, rfl⟩ := List.mem_map.mp hr'
      refine ⟨all_isFinite_map_real r, ?_⟩
      rw [List.length_map, List.length_map]
      exact (hr r hrmem).1
  · rw [calcular_similaridade, if_pos ⟨all_isFinite_map_real t, all_isFinite_map_real t, rfl⟩,
      calcular_similaridade, map_toQ_map_real, cosSim_self t ht]

/-- Concrete instance of `C7_similarity_range` at profile `[1, 0]` against
the reference rows `[[1, 0], [0, 1]]`. -/
theorem C7_similarity_range_witness :
    sumSq [(1 : ℚ), 0] ≠ 0 ∧
    (∀ r ∈ [[(1 : ℚ), 0], [(0 : ℚ), 1]], r.length = [(1 : ℚ), 0].length ∧ sumSq r ≠ 0) ∧
    ((∀ s ∈ calcular_similaridade ([(1 : ℚ), 0].map real)
        ([[(1 : ℚ), 0], [(0 : ℚ), 1]].map (fun r => r.map real)), -1 ≤ s ∧ s ≤ 1) ∧
      (calcular_similaridade ([(1 : ℚ), 0].map real)
        ([[(1 : ℚ), 0], [(0 : ℚ), 1]].map (fun r => r.map real))).length =
        [[(1 : ℚ), 0], [(0 : ℚ), 1]].length ∧
      calcular_similaridade ([(1 : ℚ), 0].map real) [[(1 : ℚ), 0].map real] = [1]) :=
  ⟨by norm_num [sumSq],
    by
      intro r hrm
      simp only [List.mem_cons, List.not_mem_nil, or_false] at hrm
      rcases hrm with rfl | rfl <;> norm_num [sumSq],
    C7_similarity_range [1, 0] [[1, 0], [0, 1]] (by norm_num [sumSq])
      (by
        intro r hrm
        simp only [List.mem_cons, List.not_mem_nil, or_false] at hrm
        rcases hrm with rfl | rfl <;> norm_num [sumSq])⟩

/-- Claim C8 counterexample: comparing the 3-column profile `[1, 1, 1]`
against the 4-column table `[[1, 1, 1, 1]]` raises nothing to the caller;
both the scorer and the detector catch the library error and return the
empty list, i.e. a result. -/
theorem C8_counterexample_schema_mismatch :
    calcular_similaridade [real 1, real 1, real 1]
        [[real 1, real 1, real 1, real 1]] = [] ∧
    detectar_adulterantes [real 1, real 1, real 1]
        [[real 1, real 1, real 1, real 1]] = [] := by
  constructor
  · rw [calcular_similaridade, if_neg]
    rintro ⟨-, -, hc⟩
    simp at hc
  · decide

/-- Claim C8 amended: on a schema mismatch at the first row no exception
is propagated.  The scorer catches the sklearn dimension error and returns
the empty score list on every length mismatch; the detector does the same
whenever neither operand has exactly one column.  With a one-column
operand (a case the 3-versus-4-column counterexample does not involve)
numpy broadcasts and detection proceeds instead; see
`detectar_broadcast_one_column`. -/
theorem C8_amended_schema_mismatch (t r : List FloatVal) (rs : List (List FloatVal))
    (h : r.length ≠ t.length) :
    calcular_similaridade t (r :: rs) = [] ∧
    (t.length ≠ 1 → r.length ≠ 1 → detectar_adulterantes t (r :: rs) = []) := by
  constructor
  · rw [calcular_similaridade, if_neg]
    rintro ⟨-, -, hc⟩
    exact h hc
  · intro ht1 hr1
    rw [detectar_adulterantes,
      detectLoop_cons_none t r rs 0
        (by rw [npGe, if_neg (fun hc => h hc.symm), if_neg ht1, if_neg hr1])]

/-- The numpy length-1 broadcast kept by the model: the one-column profile
`[5]` compared against the two-column adulterant row `[1, 2]` raises no
error and the row is flagged. -/
theorem detectar_broadcast_one_column :
    detectar_adulterantes [real 5] [[real 1, real 2]] = [0] := by decide

/-- Concrete instance of `C8_amended_schema_mismatch`: the 2-column
profile `[1, 1]` against the 3-column row `[1, 2, 3]`, with every
hypothesis discharged. -/
theorem C8_amended_schema_mismatch_witness :
    ([real 1, real 2, real 3] : List FloatVal).length ≠
      ([real 1, real 1] : List FloatVal).length ∧
    calcular_similaridade [real 1, real 1] [[real 1, real 2, real 3]] = [] ∧
    detectar_adulterantes [real 1, real 1] [[real 1, real 2, real 3]] = [] :=
  ⟨by decide,
    (C8_amended_schema_mismatch [real 1, real 1] [real 1, real 2, real 3] []
      (by decide)).1,
    (C8_amended_schema_mismatch [real 1, real 1] [real 1, real 2, real 3] []
      (by decide)).2 (by decide) (by decide)⟩

/-- Claim C10: with an empty reference table, the scorer returns the empty
score list for every test profile, and the pipeline (whose per-sample best
match is Python's `max` over that empty list) fails on the first test row,
producing no report. -/
theorem C10_empty_reference (teste banco_adulterantes : List (List ℚ))
    (h : teste ≠ []) :
    (∀ e : List FloatVal, calcular_similaridade e [] = []) ∧
    pipeline teste [] banco_adulterantes = none := by
  constructor
  · intro e
    rw [calcular_similaridade]
  · obtain ⟨e, es, rfl⟩ : ∃ e es, teste = e :: es := by
      cases teste with
      | nil => exact absurd rfl h
      | cons e es => exact ⟨e, es, rfl⟩
    rw [pipeline]
    simp only [List.map_cons, List.map_nil]
    rw [show preprocessar_espectros ([] : List (List FloatVal)) = [] from rfl]
    rw [show preprocessar_espectros
        ((e.map real) :: es.map (fun r => r.map real)) =
      ((e.map real).map (fun x => fdiv x (pdSum (e.map real)))) ::
        preprocessar_espectros (es.map (fun r => r.map real)) from rfl]
    rw [processarAmostras, calcular_similaridade]
    rfl

/-- Concrete instance of `C10_empty_reference` at the one-sample test
table `[[1]]`. -/
theorem C10_empty_reference_witness :
    ([[(1 : ℚ)]] : List (List ℚ)) ≠ [] ∧
    ((∀ e : List FloatVal, calcular_similaridade e [] = []) ∧
      pipeline [[(1 : ℚ)]] [] [] = none) :=
  ⟨by decide, C10_empty_reference [[1]] [] (by decide)⟩
